import Mathlib

/-!
Verification development for `editingchecks.py` (repository mparje/book-gen).

Shallow embedding: Python strings are modelled as `List Char`; Python string
indexing (with negative indices and `IndexError`) is modelled by `pyIdx`;
a call of `verify` either returns a boolean verdict or raises `IndexError`,
modelled by `PyResult`.  Stateful console output is modelled as lists of
strings, one entry per `print` call.
-/

/-! ## Characters and character predicates -/

/-- `chr(8211)`, the en dash. -/
def ndash : Char := Char.ofNat 8211

/-- `chr(8212)`, the em dash. -/
def mdash : Char := Char.ofNat 8212

/-- `chr(8216)`, the left single quotation mark. -/
def lsquo : Char := Char.ofNat 8216

/-- `chr(8217)`, the right single quotation mark. -/
def rsquo : Char := Char.ofNat 8217

/-- `chr(8220)`, the left double quotation mark. -/
def ldquo : Char := Char.ofNat 8220

/-- `chr(8221)`, the right double quotation mark. -/
def rdquo : Char := Char.ofNat 8221

/-- `chr(8230)`, the horizontal ellipsis. -/
def hellip : Char := Char.ofNat 8230

/-- Python `str.isalpha` on a single character, restricted to the ASCII
letters (the alphabetic characters exercised by the program's rules). -/
def pyIsAlpha (c : Char) : Bool := c.isAlpha

/-- Python `str.isspace` on a single character (the ASCII whitespace
characters). -/
def pyIsSpace (c : Char) : Bool :=
  c = ' ' || c = '\t' || c = '\n' || c = '\x0b' || c = '\x0c' || c = '\r'

/-- The set `PUNCTUATION = {'.', ',', '?', '!', '—', '…'}` from the source. -/
def PUNCTUATION : List Char := ['.', ',', '?', '!', mdash, hellip]

/-- `CHARS_WORTH_CHECKING` from the source. -/
def CHARS_WORTH_CHECKING : List Char :=
  [ndash, mdash, Char.ofNat 34, Char.ofNat 39, lsquo, rsquo, ldquo, rdquo, hellip]

/-! ## Python indexing and boolean operators -/

/-- Python single-character string indexing `s[i]`: a negative index counts
from the end; an out-of-range index raises `IndexError` (here: `none`). -/
def pyIdx (s : List Char) (i : Int) : Option Char :=
  let j : Int := if i < 0 then i + s.length else i
  if 0 ≤ j ∧ j < (s.length : Int) then s.get? j.toNat else none

/-- Outcome of evaluating a Python boolean expression: a value, or an
uncaught `IndexError`. -/
inductive PyResult where
  | ok (b : Bool)
  | exn
deriving DecidableEq, Repr

/-- Python `and` with short-circuit evaluation and exception propagation. -/
def pyAnd (x : PyResult) (y : Unit → PyResult) : PyResult :=
  match x with
  | .exn => .exn
  | .ok false => .ok false
  | .ok true => y ()

/-- Python `or` with short-circuit evaluation and exception propagation. -/
def pyOr (x : PyResult) (y : Unit → PyResult) : PyResult :=
  match x with
  | .exn => .exn
  | .ok true => .ok true
  | .ok false => y ()

/-- Evaluate a single-character test `p(s[i])`, propagating `IndexError`. -/
def idxTest (s : List Char) (i : Int) (p : Char → Bool) : PyResult :=
  match pyIdx s i with
  | some c => .ok (p c)
  | none => .exn

/-! ## The verifier -/

/-- The local list `defined` inside `verify`. -/
def defined : List Char := [ndash, mdash, lsquo, rsquo, ldquo, rdquo, hellip]

/-- Left padding from the ellipsis branch:
`left_context = (2 - len(left_context)) * " " + left_context` when shorter
than 2 characters. -/
def padL (s : List Char) : List Char :=
  if s.length < 2 then List.replicate (2 - s.length) ' ' ++ s else s

/-- Right padding from the ellipsis branch:
`right_context = right_context + (2 - len(right_context)) * " "` when shorter
than 2 characters. -/
def padR (s : List Char) : List Char :=
  if s.length < 2 then s ++ List.replicate (2 - s.length) ' ' else s

/-- The ellipsis branch of `verify`.  Note: in the source the comparison
`right_context[0] == (chr(8221) or chr(8217))` compares against the value of
the Python expression `chr(8221) or chr(8217)`, which is `chr(8221)`; likewise
`left_context[0] == (chr(8220) or chr(8216))` compares against `chr(8220)`
only, and it reads `left_context[0]`, the first character of the padded left
context. -/
def hellipResult (left_context right_context : List Char) : PyResult :=
  let lc := padL left_context
  let rc := padR right_context
  pyOr (pyAnd (idxTest lc (-1) (fun c => c = '[')) (fun _ => idxTest rc 0 (fun c => c = ']')))
  (fun _ => pyOr (pyAnd (idxTest lc (-2) pyIsAlpha) (fun _ => pyAnd (idxTest lc (-1) pyIsSpace)
      (fun _ => pyAnd (idxTest rc 0 pyIsSpace) (fun _ => idxTest rc 1 pyIsAlpha))))
  (fun _ => pyOr (pyAnd (idxTest lc (-2) pyIsAlpha) (fun _ => pyAnd (idxTest lc (-1) pyIsSpace)
      (fun _ => idxTest rc 0 (fun c => c = rdquo))))
  (fun _ => pyAnd (idxTest lc 0 (fun c => c = ldquo))
      (fun _ => pyAnd (idxTest rc 0 pyIsSpace) (fun _ => idxTest rc 1 pyIsAlpha)))))

/-- The em-dash branch of `verify`:
`left_context[-1].isalpha() and right_context[0].isalpha()`. -/
def mdashResult (left_context right_context : List Char) : PyResult :=
  pyAnd (idxTest left_context (-1) pyIsAlpha) (fun _ => idxTest right_context 0 pyIsAlpha)

/-- The en-dash branch of `verify`. -/
def ndashResult (left_context right_context : List Char) : PyResult :=
  pyOr (pyAnd (idxTest left_context (-1) pyIsAlpha) (fun _ => idxTest right_context 0 pyIsAlpha))
  (fun _ => pyAnd (idxTest left_context (-2) pyIsAlpha) (fun _ => pyAnd (idxTest left_context (-1) pyIsSpace)
      (fun _ => pyAnd (idxTest right_context 0 pyIsSpace) (fun _ => idxTest right_context 1 pyIsAlpha))))

/-- The branch of `verify` for the left single and left double quote. -/
def lquoteResult (left_context right_context : List Char) : PyResult :=
  if 0 < left_context.length ∧ 0 < right_context.length then
    pyAnd (idxTest left_context (-1) pyIsSpace) (fun _ => idxTest right_context 0 pyIsAlpha)
  else if left_context.length = 0 then
    idxTest right_context 0 pyIsAlpha
  else
    .ok false

/-- The branch of `verify` for the right single quote. -/
def rsquoResult (left_context right_context : List Char) : PyResult :=
  if 0 < left_context.length ∧ 0 < right_context.length then
    pyOr (pyAnd (pyOr (idxTest left_context (-1) pyIsAlpha)
            (fun _ => idxTest left_context (-1) (fun c => decide (c ∈ PUNCTUATION))))
          (fun _ => idxTest right_context 0 pyIsSpace))
      (fun _ => pyAnd (idxTest left_context (-1) pyIsAlpha) (fun _ => idxTest right_context 0 pyIsAlpha))
  else if right_context.length = 0 then
    pyOr (idxTest left_context (-1) pyIsAlpha)
      (fun _ => idxTest left_context (-1) (fun c => decide (c ∈ PUNCTUATION)))
  else
    .ok false

/-- The branch of `verify` for the right double quote. -/
def rdquoResult (left_context right_context : List Char) : PyResult :=
  if 0 < left_context.length ∧ 0 < right_context.length then
    pyAnd (pyOr (idxTest left_context (-1) pyIsAlpha)
            (fun _ => idxTest left_context (-1) (fun c => decide (c ∈ PUNCTUATION))))
      (fun _ => idxTest right_context 0 pyIsSpace)
  else if right_context.length = 0 then
    pyOr (idxTest left_context (-1) pyIsAlpha)
      (fun _ => idxTest left_context (-1) (fun c => decide (c ∈ PUNCTUATION)))
  else
    .ok false

/-- Result of a call to `verify`: whether an error message was written to
`sys.stderr`, and the verdict (or uncaught `IndexError`). -/
structure VerifyOut where
  errToStderr : Bool
  result : PyResult
deriving DecidableEq, Repr

/-- The function `verify(character, left_context, right_context)`.  Branches
appear in source order; every character of `defined` reaches its branch, so
the final catch-all is the right-double-quote branch. -/
def verify (character : Char) (left_context right_context : List Char) : VerifyOut :=
  if character ∉ defined then ⟨true, .ok false⟩
  else if character = hellip then ⟨false, hellipResult left_context right_context⟩
  else if character = mdash then ⟨false, mdashResult left_context right_context⟩
  else if character = ndash then ⟨false, ndashResult left_context right_context⟩
  else if character = lsquo ∨ character = ldquo then ⟨false, lquoteResult left_context right_context⟩
  else if character = rsquo then ⟨false, rsquoResult left_context right_context⟩
  else ⟨false, rdquoResult left_context right_context⟩

/-! ## Spec-side context accessors -/

/-- Reading the character immediately following a context. -/
def firstChar (s : List Char) : Char := s.headD ' '

/-- Reading the second character of a context. -/
def secondChar (s : List Char) : Char := (s.drop 1).headD ' '

/-- Reading the character immediately preceding a context boundary. -/
def lastChar (s : List Char) : Char := s.getLastD ' '

/-- Reading the second-to-last character of a context. -/
def secondLastChar (s : List Char) : Char := s.dropLast.getLastD ' '

/-- The ellipsis rule as the code actually evaluates it, written over the
padded contexts: clause (c) accepts only the right double quotation mark
(the `or` of two character literals evaluates to the first), and clause (d)
tests the first character of the padded left context against the left double
quotation mark only. -/
def hellipAmended (l r : List Char) : Bool :=
  let lc := padL l
  let rc := padR r
  (decide (lastChar lc = '[') && decide (firstChar rc = ']')) ||
  (pyIsAlpha (secondLastChar lc) && pyIsSpace (lastChar lc) &&
    pyIsSpace (firstChar rc) && pyIsAlpha (secondChar rc)) ||
  (pyIsAlpha (secondLastChar lc) && pyIsSpace (lastChar lc) &&
    decide (firstChar rc = rdquo)) ||
  (decide (firstChar lc = ldquo) && pyIsSpace (firstChar rc) && pyIsAlpha (secondChar rc))

/-- The ellipsis rule exactly as claim C1 words it: clause (c) accepts either
closing quotation mark, and clause (d) tests the character immediately to the
left of the ellipsis for either opening quotation mark. -/
def hellipClaimed (l r : List Char) : Bool :=
  let lc := padL l
  let rc := padR r
  (decide (lastChar lc = '[') && decide (firstChar rc = ']')) ||
  (pyIsAlpha (secondLastChar lc) && pyIsSpace (lastChar lc) &&
    pyIsSpace (firstChar rc) && pyIsAlpha (secondChar rc)) ||
  (pyIsAlpha (secondLastChar lc) && pyIsSpace (lastChar lc) &&
    (decide (firstChar rc = rdquo) || decide (firstChar rc = rsquo))) ||
  ((decide (lastChar lc = ldquo) || decide (lastChar lc = lsquo)) &&
    pyIsSpace (firstChar rc) && pyIsAlpha (secondChar rc))

/-! ## Helper functions of the source and the report driver -/

/-- `findall(string, character)`: all positions of a character in a string. -/
def findall (string : List Char) (character : Char) : List Nat :=
  (string.enum.filter (fun p => p.2 = character)).map Prod.fst

/-- `findall_blank(string)`: all positions of blank space in a string. -/
def findall_blank (string : List Char) : List Nat :=
  (string.enum.filter (fun p => pyIsSpace p.2)).map Prod.fst

/-- `SNIPPET_RADIUS`: context characters kept on each side of an occurrence. -/
def SNIPPET_RADIUS : Nat := 10

/-- Python slice `s[a:b]` for non-negative bounds (with Python's clamping). -/
def pySlice (s : List Char) (a b : Nat) : List Char := (s.take b).drop a

/-- The left context extracted in `runchecks`:
`line[left_extent:position]` with `left_extent = max(position - SNIPPET_RADIUS, 0)`. -/
def left_context_of (line : List Char) (position : Nat) : List Char :=
  let left_extent := if position < SNIPPET_RADIUS then 0 else position - SNIPPET_RADIUS
  pySlice line left_extent position

/-- The right context extracted in `runchecks`:
`line[position + 1:position + 1 + SNIPPET_RADIUS]`. -/
def right_context_of (line : List Char) (position : Nat) : List Char :=
  pySlice line (position + 1) (position + 1 + SNIPPET_RADIUS)

/-- Python `line.rstrip('\n')`: drop every trailing newline character. -/
def rstripNewline (line : List Char) : List Char :=
  (line.reverse.dropWhile (fun c => c = '\n')).reverse

/-- The grouping of `groupby(enumerate(blanks), lambda x: x[0] - x[1])` used
in the blank-space check: adjacent elements fall into one group exactly when
they differ by one, so the groups are the maximal runs of consecutive values. -/
def groupRuns : List Nat → List (List Nat)
  | [] => []
  | x :: xs =>
    match groupRuns xs with
    | (y :: g) :: rest => if x + 1 = y then (x :: y :: g) :: rest else [x] :: (y :: g) :: rest
    | gs => [x] :: gs

/-- The list `p, p+1, ..., p+n-1` of consecutive naturals (spec-side notion of
a run of positions). -/
def consecFrom (p : Nat) : Nat → List Nat
  | 0 => []
  | n + 1 => p :: consecFrom (p + 1) n

/-- Whether position `p` of a line holds a whitespace character. -/
def spaceAt (line : List Char) (p : Nat) : Bool :=
  match line.get? p with
  | some c => pyIsSpace c
  | none => false

/-- A maximal run of at least two consecutive whitespace characters starting
at position `p` with length `n` (spec-side notion for the blank-space check). -/
def MaxRun (line : List Char) (p n : Nat) : Prop :=
  2 ≤ n ∧ (∀ k, k < n → spaceAt line (p + k) = true) ∧
    (0 < p → spaceAt line (p - 1) = false) ∧ spaceAt line (p + n) = false

/-- What the blank-space section of `runchecks` reports for one line: the
`(start, length)` of every blank sequence of length at least two, and whether
the `NB: blank at end of line` warning fires (`blanks[-1] == len(line)-1`,
reached only when the line has blanks at all). -/
structure BlankReport where
  runs : List (Nat × Nat)
  trailing : Bool
deriving DecidableEq, Repr

/-- The per-line computation of the blank-space check in `runchecks`. -/
def blankCheckLine (raw : List Char) : BlankReport :=
  let line := rstripNewline raw
  let blanks := findall_blank line
  if blanks = [] then ⟨[], false⟩
  else
    ⟨((groupRuns blanks).filter (fun g => 1 < g.length)).map (fun g => (g.headD 0, g.length)),
     decide (blanks.getLastD 0 = line.length - 1)⟩

/-- Python `pattern in s` on strings (substring containment). -/
def strIn (pat : List Char) : List Char → Bool
  | [] => pat.isEmpty
  | a :: t => pat.isPrefixOf (a :: t) || strIn pat (t)

/-- The bad-period test of `runchecks` on one (raw) line:
`two_periods in line or unpadded in line or padded in line`. -/
def periodHit (line : List Char) : Bool :=
  strIn "..".data line || strIn "...".data line || strIn ". . .".data line

/-- The line numbers reported by the bad-period check:
`sorted(list({index + 1 for ... if ...}))`. -/
def badPeriodLines (lines : List (List Char)) : List Nat :=
  List.insertionSort (· ≤ ·)
    (((lines.enum.filter (fun p => periodHit p.2)).map (fun p => p.1 + 1)).dedup)

/-! ## Output model

Console output is modelled as a list of strings, one entry per `print` call
(`print(x, end='')` also counts as one entry).  A raised `IndexError` inside
`verify` aborts the run; the model keeps the output printed up to that point
and records the abort in a flag. -/

/-- The buffer loop of `runchecks` for one line containing `item`:
`some (some buf)` when at least one occurrence is unverified (the buffer is
printed), `some none` when all occurrences verify, `none` when a call of
`verify` raises `IndexError`. -/
def lineBufferGo (item : Char) (line : List Char) :
    List Nat → Bool → String → Option (Bool × String)
  | [], unv, buf => some (unv, buf)
  | pos :: rest, unv, buf =>
    match (verify item (left_context_of line pos) (right_context_of line pos)).result with
    | .exn => none
    | .ok true => lineBufferGo item line rest unv buf
    | .ok false =>
      lineBufferGo item line rest true
        (buf ++ "  pos " ++ toString pos ++ ": ..." ++ String.mk (left_context_of line pos) ++
          String.mk [item] ++ String.mk (right_context_of line pos) ++ "...\n")

/-- Scan one line for `item` occurrences as `runchecks` does. -/
def lineBuffer (item : Char) (line : List Char) (index : Nat) : Option (Option String) :=
  match lineBufferGo item line (findall line item) false ("Line " ++ toString (index + 1) ++ ":\n") with
  | none => none
  | some (unv, buf) => some (if unv then some buf else none)

/-- Rendering of one line's blank-space findings, one string per `print`. -/
def blankLineOut (index : Nat) (raw : List Char) : List String :=
  let rep := blankCheckLine raw
  let seqOut : List String :=
    if rep.runs ≠ [] then
      ("Line " ++ toString (index + 1) ++ ":") ::
        rep.runs.map (fun s =>
          "   Position " ++ toString s.1 ++ ", blank sequence of length " ++ toString s.2)
    else []
  let nbOut : List String :=
    if rep.trailing then ["NB: blank at end of line " ++ toString (index + 1)] else []
  (seqOut ++ nbOut) ++ (if rep.runs ≠ [] ∨ rep.trailing then [""] else [])

/-- Output of the blank-space section of `runchecks`. -/
def blanksOut (lines : List (List Char)) : List String :=
  "Checking for blank space problems:" ::
    ((lines.enum.map (fun p => blankLineOut p.1 p.2)).join ++ ["Done with blanks check.\n"])

/-- Output of the bad-period section of `runchecks`. -/
def periodsOut (lines : List (List Char)) : List String :=
  "Checking for bad periods and unconverted ellipses:" ::
    ((if badPeriodLines lines ≠ [] then
        ["   Possible bad periods or unconverted ellipses found in lines:", "   ",
          String.intercalate ", " ((badPeriodLines lines).map toString)]
      else
        ["   No bad periods or suspicious unconverted ellipses found."]) ++
      ["Done with bad period and unconverted ellipsis check.\n"])

/-- The `Searching for ...` header; `unicodedata.name` is a Python library
function, taken as a parameter (`none` models it raising `ValueError`). -/
def charHeaderOut (uname : Char → Option String) (item : Char) : String :=
  match uname item with
  | some nm => "Searching for " ++ String.mk [item] ++ ", " ++ nm ++ ":"
  | none => "Searching for " ++ String.mk [item] ++ ", (no Unicode name):"

/-- State of the per-character scan over the lines. -/
structure CharScanSt where
  out : List String
  found_any : Bool
  any_unverified : Bool
  crashed : Bool

/-- One line of the per-character scan of `runchecks`. -/
def charScanLine (item : Char) (st : CharScanSt) (p : Nat × List Char) : CharScanSt :=
  if st.crashed then st
  else
    let line := rstripNewline p.2
    if item ∈ line then
      match lineBuffer item line p.1 with
      | none => { st with found_any := true, crashed := true }
      | some none => { st with found_any := true }
      | some (some buf) => { st with found_any := true, any_unverified := true, out := st.out ++ [buf] }
    else st

/-- Output of the scan for one character of `charlist`, with the crash flag. -/
def charOut (uname : Char → Option String) (item : Char) (lines : List (List Char)) :
    List String × Bool :=
  let st := lines.enum.foldl (charScanLine item) ⟨[], false, false, false⟩
  (charHeaderOut uname item :: st.out ++
    (if st.crashed then []
     else if st.found_any = false then ["None found."]
     else if st.any_unverified = false then ["All occurrences verified."]
     else []) ++
    (if st.crashed then [] else [""]),
   st.crashed)

/-- Output of `runchecks(lines, charlist)` together with the crash flag
(`true` when a `verify` call raised `IndexError`); when the run completes the
function returns `0`. -/
def runchecksResult (uname : Char → Option String) (lines : List (List Char))
    (charlist : List Char) : List String × Bool :=
  let co := charlist.foldl (fun (acc : List String × Bool) item =>
    if acc.2 then acc
    else
      let o := charOut uname item lines
      (acc.1 ++ o.1, o.2)) ([], false)
  (blanksOut lines ++ periodsOut lines ++ co.1, co.2)

/-- Modelled from the spec: `getinventory` (module `inventory`, which is not
among the sources; the spec gives `getinventory(lines) -> set of characters`)
returns the distinct set of characters present in the lines, modelled as the
deduplicated list of all characters in first-occurrence order. -/
def getinventory (lines : List (List Char)) : List Char :=
  lines.join.dedup

/-- Modelled from the spec: `prettyprint` (module `inventory`, not among the
sources; the spec gives console formatting of the distinct characters found)
is modelled as a single deterministic output line listing those characters. -/
def prettyprint (chars : List Char) : List String :=
  [String.mk chars]

/-- Insert into a sorted list of characters (helper for `sorted`). -/
def insertChar (c : Char) : List Char → List Char
  | [] => [c]
  | a :: t => if c ≤ a then c :: a :: t else a :: insertChar c t

/-- Python `sorted` on a list of characters. -/
def sortChars : List Char → List Char
  | [] => []
  | a :: t => insertChar a (sortChars t)

/-- `chars_to_check` in `main`: the inventory intersected with
`CHARS_WORTH_CHECKING`, unioned with the non-ASCII inventory characters,
sorted.  The union is expressed as one filter over the distinct inventory. -/
def chars_to_check (lines : List (List Char)) : List Char :=
  sortChars ((getinventory lines).filter
    (fun c => decide (c ∈ CHARS_WORTH_CHECKING) || decide (¬ c.toNat < 128)))

/-- The whole program `main`, as a function of the timestamp printed by
`datetime.datetime.now()`, the argument vector, the file-system predicates
(`os.path.isfile` and reading a file into its lines, `none` for `IOError`)
and `unicodedata.name`.  Returns the console output and the exit code
(`none` models abnormal termination by an uncaught exception). -/
def mainRun (now : String) (argv : List String) (isfile : String → Bool)
    (readf : String → Option (List (List Char))) (uname : Char → Option String) :
    List String × Option Nat :=
  if argv.length ≠ 2 then (["Usage: editingchecks.py text_file"], some 1)
  else
    let filename := argv.getD 1 ""
    if isfile filename = false then
      (["File path " ++ filename ++ " does not exist. Exiting..."], some 1)
    else
      match readf filename with
      | none =>
        (["Started at " ++ now ++ ", checking file " ++ filename ++ ":",
          "Reading file for inventory... ",
          "Could not read " ++ filename], some 1)
      | some lines =>
        let ro := runchecksResult uname lines (chars_to_check lines)
        (["Started at " ++ now ++ ", checking file " ++ filename ++ ":",
          "Reading file for inventory... ", "done.\n"] ++
          prettyprint (sortChars (getinventory lines)) ++
          ro.1 ++
          (if ro.2 then [] else ["Finished with no errors."]),
         if ro.2 then none else some 0)

/-! ## Bridging lemmas for Python indexing -/

lemma pyAnd_ok (a b : Bool) (f : Unit → PyResult) (hf : f () = .ok b) :
    pyAnd (.ok a) f = .ok (a && b) := by
  cases a <;> simp [pyAnd, hf]

lemma pyOr_ok (a b : Bool) (f : Unit → PyResult) (hf : f () = .ok b) :
    pyOr (.ok a) f = .ok (a || b) := by
  cases a <;> simp [pyOr, hf]

lemma pyIdx_zero (s : List Char) : pyIdx s 0 = s.get? 0 := by
  unfold pyIdx
  simp only [show ¬((0 : Int) < 0) by omega, if_false]
  split
  · rfl
  · rename_i h
    have hlen : s.length = 0 := by omega
    rw [List.get?_eq_none.mpr (by omega)]

lemma pyIdx_one (s : List Char) : pyIdx s 1 = s.get? 1 := by
  unfold pyIdx
  simp only [show ¬((1 : Int) < 0) by omega, if_false]
  split
  · rfl
  · rename_i h
    rw [List.get?_eq_none.mpr (by omega)]

lemma pyIdx_neg_one (s : List Char) : pyIdx s (-1) = s.getLast? := by
  unfold pyIdx
  simp only [show ((-1 : Int) < 0) by omega, if_true]
  rw [List.getLast?_eq_get?]
  split
  · rename_i h
    congr 1
    omega
  · rename_i h
    rw [List.get?_eq_none.mpr (by omega)]

lemma pyIdx_neg_two (s : List Char) (h : 2 ≤ s.length) :
    pyIdx s (-2) = s.get? (s.length - 2) := by
  unfold pyIdx
  simp only [show ((-2 : Int) < 0) by omega, if_true]
  split
  · rename_i h2
    congr 1
    omega
  · rename_i h2
    exfalso
    omega

lemma pyIdx_neg_two_short (s : List Char) (h : s.length < 2) : pyIdx s (-2) = none := by
  unfold pyIdx
  simp only [show ((-2 : Int) < 0) by omega, if_true]
  split
  · rename_i h2
    exfalso
    omega
  · rfl

lemma get?_dropLast : ∀ (s : List Char) (i : Nat), i + 1 < s.length →
    s.dropLast.get? i = s.get? i
  | [], i, h => by simp at h
  | [a], i, h => by simp at h
  | a :: b :: t, 0, _ => rfl
  | a :: b :: t, i + 1, h => by
    have : (a :: b :: t).dropLast = a :: (b :: t).dropLast := rfl
    rw [this]
    show (b :: t).dropLast.get? i = (b :: t).get? i
    exact get?_dropLast (b :: t) i (by simpa using Nat.lt_of_succ_lt_succ h)

lemma idxTest_last (s : List Char) (p : Char → Bool) (h : s ≠ []) :
    idxTest s (-1) p = .ok (p (lastChar s)) := by
  unfold idxTest lastChar
  rw [pyIdx_neg_one, List.getLastD_eq_getLast?, List.getLast?_eq_getLast_of_ne_nil h]
  simp

lemma idxTest_secondLast (s : List Char) (p : Char → Bool) (h : 2 ≤ s.length) :
    idxTest s (-2) p = .ok (p (secondLastChar s)) := by
  unfold idxTest secondLastChar
  have hne : s.dropLast ≠ [] := by
    intro hc
    have hl := List.length_dropLast s
    rw [hc] at hl
    simp at hl
    omega
  have h1 : s.get? (s.length - 2) = s.dropLast.get? (s.length - 2) :=
    (get?_dropLast s (s.length - 2) (by omega)).symm
  have h2 : s.dropLast.getLast? = s.dropLast.get? (s.length - 2) := by
    rw [List.getLast?_eq_get?, List.length_dropLast]
    congr 1
  rw [pyIdx_neg_two s h, h1, ← h2, List.getLast?_eq_getLast_of_ne_nil hne,
    List.getLastD_eq_getLast?, List.getLast?_eq_getLast_of_ne_nil hne]
  simp

lemma idxTest_first (s : List Char) (p : Char → Bool) (h : s ≠ []) :
    idxTest s 0 p = .ok (p (firstChar s)) := by
  unfold idxTest firstChar
  rw [pyIdx_zero]
  cases s with
  | nil => exact absurd rfl h
  | cons a t => simp [List.headD]

lemma idxTest_second (s : List Char) (p : Char → Bool) (h : 2 ≤ s.length) :
    idxTest s 1 p = .ok (p (secondChar s)) := by
  unfold idxTest secondChar
  rw [pyIdx_one]
  match s, h with
  | a :: b :: t, _ => simp [List.headD]

lemma pyAnd_ok_ok (a b : Bool) : pyAnd (.ok a) (fun _ => .ok b) = .ok (a && b) := by
  cases a <;> rfl

lemma pyOr_ok_ok (a b : Bool) : pyOr (.ok a) (fun _ => .ok b) = .ok (a || b) := by
  cases a <;> rfl

lemma padL_length (s : List Char) : 2 ≤ (padL s).length := by
  unfold padL
  split
  · simp
    omega
  · omega

lemma padR_length (s : List Char) : 2 ≤ (padR s).length := by
  unfold padR
  split
  · simp
    omega
  · omega

lemma ne_nil_of_two_le {s : List Char} (h : 2 ≤ s.length) : s ≠ [] := by
  intro hc
  rw [hc] at h
  simp at h

/-! ## Evaluation of the branches of `verify` -/

lemma verify_hellip_eq (l r : List Char) :
    verify hellip l r = ⟨false, PyResult.ok (hellipAmended l r)⟩ := by
  have hL := padL_length l
  have hR := padR_length r
  show (⟨false, hellipResult l r⟩ : VerifyOut) = _
  simp only [hellipResult, hellipAmended, idxTest_last _ _ (ne_nil_of_two_le hL),
    idxTest_secondLast _ _ hL, idxTest_first _ _ (ne_nil_of_two_le hL),
    idxTest_first _ _ (ne_nil_of_two_le hR), idxTest_second _ _ hR,
    pyAnd_ok_ok, pyOr_ok_ok]
  simp [Bool.or_assoc, Bool.and_assoc]

lemma verify_mdash_eq (l r : List Char) (hl : l ≠ []) (hr : r ≠ []) :
    verify mdash l r = ⟨false, PyResult.ok (pyIsAlpha (lastChar l) && pyIsAlpha (firstChar r))⟩ := by
  show (⟨false, mdashResult l r⟩ : VerifyOut) = _
  simp only [mdashResult, idxTest_last _ _ hl, idxTest_first _ _ hr, pyAnd_ok_ok]

lemma verify_ndash_eq (l r : List Char) (hl : 2 ≤ l.length) (hr : 2 ≤ r.length) :
    verify ndash l r = ⟨false, PyResult.ok
      ((pyIsAlpha (lastChar l) && pyIsAlpha (firstChar r)) ||
       (pyIsAlpha (secondLastChar l) && pyIsSpace (lastChar l) &&
        pyIsSpace (firstChar r) && pyIsAlpha (secondChar r)))⟩ := by
  show (⟨false, ndashResult l r⟩ : VerifyOut) = _
  simp only [ndashResult, idxTest_last _ _ (ne_nil_of_two_le hl), idxTest_secondLast _ _ hl,
    idxTest_first _ _ (ne_nil_of_two_le hr), idxTest_second _ _ hr, pyAnd_ok_ok, pyOr_ok_ok]
  simp [Bool.and_assoc]

lemma verify_ndash_exn (c : Char) (r : List Char) (hc : pyIsAlpha c = false) :
    (verify ndash [c] r).result = PyResult.exn := by
  have h1 : idxTest [c] (-1) pyIsAlpha = .ok false := by
    rw [idxTest_last [c] _ (by simp)]
    simp [lastChar, hc]
  have h2 : idxTest [c] (-2) pyIsAlpha = .exn := by
    unfold idxTest
    rw [pyIdx_neg_two_short [c] (by simp)]
  show ndashResult [c] r = PyResult.exn
  unfold ndashResult
  rw [h1]
  show pyOr (pyAnd (.ok false) _) _ = _
  simp only [pyAnd, pyOr, h2]

lemma verify_lquote_both (c : Char) (hc : c = lsquo ∨ c = ldquo) (l r : List Char)
    (hl : l ≠ []) (hr : r ≠ []) :
    verify c l r = ⟨false, PyResult.ok (pyIsSpace (lastChar l) && pyIsAlpha (firstChar r))⟩ := by
  have hres : lquoteResult l r =
      PyResult.ok (pyIsSpace (lastChar l) && pyIsAlpha (firstChar r)) := by
    unfold lquoteResult
    rw [if_pos ⟨List.length_pos.mpr hl, List.length_pos.mpr hr⟩,
      idxTest_last _ _ hl, idxTest_first _ _ hr, pyAnd_ok_ok]
  rcases hc with rfl | rfl
  · show (⟨false, lquoteResult l r⟩ : VerifyOut) = _
    rw [hres]
  · show (⟨false, lquoteResult l r⟩ : VerifyOut) = _
    rw [hres]

lemma verify_lquote_lempty (c : Char) (hc : c = lsquo ∨ c = ldquo) (r : List Char)
    (hr : r ≠ []) :
    verify c [] r = ⟨false, PyResult.ok (pyIsAlpha (firstChar r))⟩ := by
  have hres : lquoteResult [] r = PyResult.ok (pyIsAlpha (firstChar r)) := by
    unfold lquoteResult
    rw [if_neg (by simp), if_pos (show (List.length ([] : List Char)) = 0 from rfl),
      idxTest_first _ _ hr]
  rcases hc with rfl | rfl
  · show (⟨false, lquoteResult [] r⟩ : VerifyOut) = _
    rw [hres]
  · show (⟨false, lquoteResult [] r⟩ : VerifyOut) = _
    rw [hres]

lemma verify_lquote_rempty (c : Char) (hc : c = lsquo ∨ c = ldquo) (l : List Char)
    (hl : l ≠ []) :
    verify c l [] = ⟨false, PyResult.ok false⟩ := by
  have hres : lquoteResult l [] = PyResult.ok false := by
    unfold lquoteResult
    rw [if_neg (by simp), if_neg (by simp [List.length_eq_zero, hl])]
  rcases hc with rfl | rfl
  · show (⟨false, lquoteResult l []⟩ : VerifyOut) = _
    rw [hres]
  · show (⟨false, lquoteResult l []⟩ : VerifyOut) = _
    rw [hres]

lemma verify_lquote_bothempty (c : Char) (hc : c = lsquo ∨ c = ldquo) :
    (verify c [] []).result = PyResult.exn := by
  rcases hc with rfl | rfl <;> rfl

lemma verify_rsquo_total (l r : List Char) (h : l ≠ [] ∨ r ≠ []) :
    ∃ b, (verify rsquo l r).result = PyResult.ok b := by
  show ∃ b, rsquoResult l r = PyResult.ok b
  unfold rsquoResult
  rcases List.eq_nil_or_concat l with rfl | hlne
  · rw [if_neg (by simp)]
    have hr : r ≠ [] := by
      rcases h with h | h
      · exact absurd rfl h
      · exact h
    rw [if_neg (by simpa [List.length_eq_zero] using hr)]
    exact ⟨false, rfl⟩
  · have hl : l ≠ [] := by
      rcases hlne with ⟨t, a, rfl⟩
      simp
    by_cases hr : r = []
    · subst hr
      rw [if_neg (by simp), if_pos (show (List.length ([] : List Char)) = 0 from rfl)]
      simp only [idxTest_last _ _ hl, pyOr_ok_ok]
      exact ⟨_, rfl⟩
    · rw [if_pos ⟨List.length_pos.mpr hl, List.length_pos.mpr hr⟩]
      simp only [idxTest_last _ _ hl, idxTest_first _ _ hr, pyOr_ok_ok, pyAnd_ok_ok]
      exact ⟨_, rfl⟩

lemma verify_rdquo_total (l r : List Char) (h : l ≠ [] ∨ r ≠ []) :
    ∃ b, (verify rdquo l r).result = PyResult.ok b := by
  show ∃ b, rdquoResult l r = PyResult.ok b
  unfold rdquoResult
  rcases List.eq_nil_or_concat l with rfl | hlne
  · rw [if_neg (by simp)]
    have hr : r ≠ [] := by
      rcases h with h | h
      · exact absurd rfl h
      · exact h
    rw [if_neg (by simpa [List.length_eq_zero] using hr)]
    exact ⟨false, rfl⟩
  · have hl : l ≠ [] := by
      rcases hlne with ⟨t, a, rfl⟩
      simp
    by_cases hr : r = []
    · subst hr
      rw [if_neg (by simp), if_pos (show (List.length ([] : List Char)) = 0 from rfl)]
      simp only [idxTest_last _ _ hl, pyOr_ok_ok]
      exact ⟨_, rfl⟩
    · rw [if_pos ⟨List.length_pos.mpr hl, List.length_pos.mpr hr⟩]
      simp only [idxTest_last _ _ hl, idxTest_first _ _ hr, pyOr_ok_ok, pyAnd_ok_ok]
      exact ⟨_, rfl⟩

/-! ## Claims about `verify` -/

/-- C1, counterexample: with left context `"a "` and right context `"’x"`,
clause (c) of the claim holds (alphabetic-then-whitespace on the left, right
single quotation mark immediately to the right), so the claim predicts the
verdict `true`; the code returns `false`, because
`right_context[0] == (chr(8221) or chr(8217))` only ever compares against the
right double quotation mark. -/
theorem c1_hellip_counterexample :
    verify hellip ['a', ' '] [rsquo, 'x'] = ⟨false, PyResult.ok false⟩ ∧
    hellipClaimed ['a', ' '] [rsquo, 'x'] = true := by
  exact ⟨by decide, by decide⟩

/-- C1 (amended): for every pair of context strings, `verify` on the
horizontal ellipsis pads the left context on the left and the right context
on the right with blank space to length at least 2 and returns true iff
(a) the character immediately left is `[` and immediately right is `]`, or
(b) alphabetic-then-whitespace on the left and whitespace-then-alphabetic on
the right, or (c) alphabetic-then-whitespace on the left and the character
immediately right is the right double quotation mark (the right single quote
never matches), or (d) the first character of the padded left context is the
left double quotation mark (the left single quote never matches; the
character tested is not the one immediately left) and the right context
starts with whitespace-then-alphabetic; no error is reported to stderr. -/
theorem c1_hellip_amended (l r : List Char) :
    verify hellip l r = ⟨false, PyResult.ok (hellipAmended l r)⟩ :=
  verify_hellip_eq l r

/-- C2: for every character outside the seven defined ones, `verify` prints
an error message to standard error, returns the verdict `False`, and raises
no exception (the result is an ordinary boolean verdict, so execution
continues and the caller flags the occurrence). -/
theorem c2_unsupported_char (c : Char) (l r : List Char) (h : c ∉ defined) :
    verify c l r = ⟨true, PyResult.ok false⟩ := by
  unfold verify
  rw [if_pos h]

/-- Witness for C2 at the concrete character `x`. -/
theorem c2_unsupported_char_witness :
    ('x' ∉ defined) ∧ verify 'x' [] [] = ⟨true, PyResult.ok false⟩ :=
  ⟨by decide, c2_unsupported_char 'x' [] [] (by decide)⟩

/-- C3, counterexample: the em dash is one of the seven defined characters,
yet `verify` on the em dash with two empty contexts raises `IndexError`
instead of returning a boolean verdict. -/
theorem c3_total_counterexample :
    mdash ∈ defined ∧ (verify mdash [] []).result = PyResult.exn := by
  exact ⟨by decide, by decide⟩

/-- C3 (amended): `verify` never fails on the ellipsis (any contexts, the
padding guarantees this) nor on the four quote characters when at least one
context is non-empty; on the em dash it returns a verdict whenever both
contexts are non-empty, and on the en dash whenever both contexts have at
least two characters.  (The claim's "including empty and length-1 contexts"
is false for the em dash, the en dash, and the quotes with both contexts
empty.) -/
theorem c3_total_amended (c : Char) (l r : List Char) :
    (c = hellip → ∃ b, (verify c l r).result = PyResult.ok b) ∧
    ((c = lsquo ∨ c = ldquo ∨ c = rsquo ∨ c = rdquo) → (l ≠ [] ∨ r ≠ []) →
      ∃ b, (verify c l r).result = PyResult.ok b) ∧
    (c = mdash → l ≠ [] → r ≠ [] → ∃ b, (verify c l r).result = PyResult.ok b) ∧
    (c = ndash → 2 ≤ l.length → 2 ≤ r.length → ∃ b, (verify c l r).result = PyResult.ok b) := by
  refine ⟨?_, ?_, ?_, ?_⟩
  · rintro rfl
    exact ⟨_, by rw [verify_hellip_eq l r]⟩
  · rintro hc h
    rcases hc with hc | hc | rfl | rfl
    · rcases List.eq_nil_or_concat l with rfl | hl
      · have hr : r ≠ [] := by
          rcases h with h | h
          · exact absurd rfl h
          · exact h
        exact ⟨_, by rw [verify_lquote_lempty c (Or.inl hc) r hr]⟩
      · have hlne : l ≠ [] := by
          rcases hl with ⟨t, a, rfl⟩
          simp
        by_cases hr : r = []
        · subst hr
          exact ⟨_, by rw [verify_lquote_rempty c (Or.inl hc) l hlne]⟩
        · exact ⟨_, by rw [verify_lquote_both c (Or.inl hc) l r hlne hr]⟩
    · rcases List.eq_nil_or_concat l with rfl | hl
      · have hr : r ≠ [] := by
          rcases h with h | h
          · exact absurd rfl h
          · exact h
        exact ⟨_, by rw [verify_lquote_lempty c (Or.inr hc) r hr]⟩
      · have hlne : l ≠ [] := by
          rcases hl with ⟨t, a, rfl⟩
          simp
        by_cases hr : r = []
        · subst hr
          exact ⟨_, by rw [verify_lquote_rempty c (Or.inr hc) l hlne]⟩
        · exact ⟨_, by rw [verify_lquote_both c (Or.inr hc) l r hlne hr]⟩
    · exact verify_rsquo_total l r h
    · exact verify_rdquo_total l r h
  · rintro rfl hl hr
    exact ⟨_, by rw [verify_mdash_eq l r hl hr]⟩
  · rintro rfl hl hr
    exact ⟨_, by rw [verify_ndash_eq l r hl hr]⟩

/-- Witness for C3 (amended), one concrete instance per conjunct. -/
theorem c3_total_amended_witness :
    (∃ b, (verify hellip [] []).result = PyResult.ok b) ∧
    (∃ b, (verify lsquo [] ['a']).result = PyResult.ok b) ∧
    (∃ b, (verify mdash ['a'] ['b']).result = PyResult.ok b) ∧
    (∃ b, (verify ndash ['a', 'b'] ['c', 'd']).result = PyResult.ok b) :=
  ⟨(c3_total_amended hellip [] []).1 rfl,
   (c3_total_amended lsquo [] ['a']).2.1 (Or.inl rfl) (Or.inr (by decide)),
   (c3_total_amended mdash ['a'] ['b']).2.2.1 rfl (by decide) (by decide),
   (c3_total_amended ndash ['a', 'b'] ['c', 'd']).2.2.2 rfl (by decide) (by decide)⟩

/-- C4: with both contexts non-empty, `verify` on the em dash returns true
iff the character immediately left and the character immediately right are
both alphabetic; on the line `He said—truly—it was fine.` the em dash occurs
at positions 7 and 13 and the per-line scan verifies every occurrence (no
occurrence is buffered for printing). -/
theorem c4_mdash_rule :
    (∀ l r : List Char, l ≠ [] → r ≠ [] →
      verify mdash l r = ⟨false, PyResult.ok (pyIsAlpha (lastChar l) && pyIsAlpha (firstChar r))⟩) ∧
    findall "He said—truly—it was fine.".data mdash = [7, 13] ∧
    lineBuffer mdash "He said—truly—it was fine.".data 0 = some none :=
  ⟨fun l r hl hr => verify_mdash_eq l r hl hr, by decide, by decide⟩

/-- Witness for C4 at concrete one-character contexts. -/
theorem c4_mdash_rule_witness :
    verify mdash ['x'] ['3'] = ⟨false, PyResult.ok false⟩ := by
  have h := c4_mdash_rule.1 ['x'] ['3'] (by decide) (by decide)
  rw [h]
  decide

/-- C5, counterexample: on a left double quote with both contexts empty the
claim demands the verdict `false` (empty right context), but the code takes
the empty-left-context branch and `right_context[0]` raises `IndexError`, so
no verdict is returned at all. -/
theorem c5_lquote_counterexample :
    (verify ldquo [] []).result = PyResult.exn := by
  decide

/-- C5 (amended): for the left single or left double quote: with both
contexts non-empty the verdict is true iff whitespace immediately left and
alphabetic immediately right; with empty left and non-empty right context
the verdict is true iff alphabetic immediately right; with non-empty left
and empty right context the verdict is false; with both contexts empty,
`verify` raises `IndexError` instead of returning a verdict.  A left double
quote at the start of a line followed by a digit yields false, and the
occurrence is flagged with its snippet. -/
theorem c5_lquote_rule :
    (∀ c : Char, (c = lsquo ∨ c = ldquo) → ∀ l r : List Char,
      (l ≠ [] → r ≠ [] →
        verify c l r = ⟨false, PyResult.ok (pyIsSpace (lastChar l) && pyIsAlpha (firstChar r))⟩) ∧
      (l = [] → r ≠ [] → verify c l r = ⟨false, PyResult.ok (pyIsAlpha (firstChar r))⟩) ∧
      (l ≠ [] → r = [] → verify c l r = ⟨false, PyResult.ok false⟩) ∧
      (l = [] → r = [] → (verify c l r).result = PyResult.exn)) ∧
    verify ldquo [] "1abc".data = ⟨false, PyResult.ok false⟩ ∧
    lineBuffer ldquo "“1abc".data 0 = some (some "Line 1:\n  pos 0: ...“1abc...\n") := by
  refine ⟨fun c hc l r => ⟨?_, ?_, ?_, ?_⟩, by decide, by decide⟩
  · intro hl hr
    exact verify_lquote_both c hc l r hl hr
  · rintro rfl hr
    exact verify_lquote_lempty c hc r hr
  · rintro hl rfl
    exact verify_lquote_rempty c hc l hl
  · rintro rfl rfl
    exact verify_lquote_bothempty c hc

/-- Witness for C5 (amended) at concrete contexts. -/
theorem c5_lquote_rule_witness :
    verify ldquo [' '] ['a'] = ⟨false, PyResult.ok true⟩ := by
  have h := (c5_lquote_rule.1 ldquo (Or.inr rfl) [' '] ['a']).1 (by decide) (by decide)
  rw [h]
  decide

/-- C10: the en-dash rule has no padding or emptiness guard: when the first
disjunct fails it indexes `left_context[-2]`, so already a left context of
length exactly 1 whose character is not alphabetic makes `verify` fail with
an out-of-range indexing error (for every right context) instead of
returning a verdict. -/
theorem c10_ndash_index_error (c : Char) (r : List Char) (hc : pyIsAlpha c = false) :
    (verify ndash [c] r).result = PyResult.exn :=
  verify_ndash_exn c r hc

/-- Witness for C10 at the concrete left context `"1"`. -/
theorem c10_ndash_index_error_witness :
    pyIsAlpha '1' = false ∧ (verify ndash ['1'] ['a', 'b']).result = PyResult.exn :=
  ⟨by decide, c10_ndash_index_error '1' ['a', 'b'] (by decide)⟩

/-! ## Enumeration and blank-position facts -/

lemma mem_enumFrom_iff {α : Type} : ∀ (s : List α) (n : Nat) (i : Nat) (c : α),
    (i, c) ∈ s.enumFrom n ↔ n ≤ i ∧ s.get? (i - n) = some c := by
  intro s
  induction s with
  | nil =>
    intro n i c
    simp [List.enumFrom]
  | cons a t ih =>
    intro n i c
    simp only [List.enumFrom, List.mem_cons, ih (n + 1)]
    constructor
    · rintro (h | ⟨h1, h2⟩)
      · rw [Prod.mk.injEq] at h
        obtain ⟨rfl, rfl⟩ := h
        refine ⟨le_refl _, ?_⟩
        simp
      · refine ⟨by omega, ?_⟩
        have he : i - n = (i - (n + 1)) + 1 := by omega
        rw [he]
        simpa using h2
    · rintro ⟨h1, h2⟩
      rcases Nat.eq_or_lt_of_le h1 with h | h
      · left
        have he : i - n = 0 := by omega
        rw [he] at h2
        have h3 : some a = some c := h2
        injection h3 with h4
        rw [Prod.mk.injEq]
        exact ⟨by omega, h4.symm⟩
      · right
        refine ⟨by omega, ?_⟩
        have he : i - n = (i - (n + 1)) + 1 := by omega
        rw [he] at h2
        simpa using h2

lemma pairwise_enumFrom {α : Type} (s : List α) : ∀ n : Nat,
    (s.enumFrom n).Pairwise (fun a b => a.1 < b.1) := by
  induction s with
  | nil =>
    intro n
    simp [List.enumFrom]
  | cons a t ih =>
    intro n
    simp only [List.enumFrom]
    refine List.Pairwise.cons ?_ (ih (n + 1))
    rintro ⟨i, c⟩ hmem
    have h := (mem_enumFrom_iff t (n + 1) i c).mp hmem
    show n < i
    omega

lemma mem_findall_blank (s : List Char) (p : Nat) :
    p ∈ findall_blank s ↔ spaceAt s p = true := by
  unfold findall_blank
  rw [List.mem_map]
  constructor
  · rintro ⟨⟨i, c⟩, hm, rfl⟩
    rw [List.mem_filter] at hm
    obtain ⟨hmem, hsp⟩ := hm
    have h := (mem_enumFrom_iff s 0 i c).mp hmem
    unfold spaceAt
    rw [show i - 0 = i from rfl] at h
    rw [h.2]
    simpa using hsp
  · intro h
    unfold spaceAt at h
    cases hc : s.get? p with
    | none => rw [hc] at h; simp at h
    | some c =>
      rw [hc] at h
      refine ⟨(p, c), ?_, rfl⟩
      rw [List.mem_filter]
      refine ⟨(mem_enumFrom_iff s 0 p c).mpr ⟨Nat.zero_le _, by simpa using hc⟩, by simpa using h⟩

lemma pairwise_findall_blank (s : List Char) : (findall_blank s).Pairwise (· < ·) := by
  unfold findall_blank
  rw [List.pairwise_map]
  exact List.Pairwise.sublist (List.filter_sublist _) (pairwise_enumFrom s 0)

lemma spaceAt_lt_length {s : List Char} {p : Nat} (h : spaceAt s p = true) : p < s.length := by
  unfold spaceAt at h
  cases hc : s.get? p with
  | none => rw [hc] at h; simp at h
  | some c =>
    by_contra hge
    rw [List.get?_eq_none.mpr (by omega)] at hc
    exact Option.noConfusion hc

/-! ## Consecutive runs -/

lemma consecFrom_length : ∀ (n p : Nat), (consecFrom p n).length = n
  | 0, _ => rfl
  | n + 1, p => by simp [consecFrom, consecFrom_length n (p + 1)]

lemma consecFrom_mem : ∀ (n p x : Nat), x ∈ consecFrom p n ↔ p ≤ x ∧ x < p + n
  | 0, p, x => by
    rw [show consecFrom p 0 = [] from rfl]
    simp only [List.not_mem_nil, false_iff]
    omega
  | n + 1, p, x => by
    simp [consecFrom, consecFrom_mem n (p + 1) x]
    omega

lemma consecFrom_headD (n p d : Nat) (h : 0 < n) : (consecFrom p n).headD d = p := by
  cases n with
  | zero => omega
  | succ m => rfl

/-- Correctness of the `groupby`-style grouping: on a strictly increasing
list, the groups are exactly the maximal runs of consecutive values. -/
lemma groupRuns_spec : ∀ (l : List Nat), l.Pairwise (· < ·) →
    (groupRuns l).join = l ∧
    ∀ g ∈ groupRuns l, ∃ p n, g = consecFrom p n ∧ 0 < n ∧
      (0 < p → (p - 1) ∉ l) ∧ (p + n) ∉ l := by
  intro l
  induction l with
  | nil =>
    intro _
    refine ⟨rfl, ?_⟩
    intro g hg
    simp [groupRuns] at hg
  | cons x xs ih =>
    intro hp
    have hxlt : ∀ e ∈ xs, x < e := (List.pairwise_cons.mp hp).1
    have hpxs : xs.Pairwise (· < ·) := (List.pairwise_cons.mp hp).2
    obtain ⟨ihj, ihg⟩ := ih hpxs
    cases hgr : groupRuns xs with
    | nil =>
      have hxs : xs = [] := by rw [← ihj, hgr]; rfl
      subst hxs
      have hTop : groupRuns [x] = [[x]] := rfl
      refine ⟨by rw [hTop]; rfl, ?_⟩
      intro g hg
      rw [hTop] at hg
      simp at hg
      subst hg
      refine ⟨x, 1, rfl, by omega, ?_, ?_⟩
      · intro hx hmem
        simp at hmem
        omega
      · intro hmem
        simp at hmem
    | cons g0 rest =>
      cases g0 with
      | nil =>
        exfalso
        obtain ⟨p, n, hg, hn, -, -⟩ := ihg [] (by rw [hgr]; exact List.mem_cons_self _ _)
        have hlen := consecFrom_length n p
        rw [← hg] at hlen
        simp at hlen
        omega
      | cons y g =>
        have hxs_shape : xs = y :: (g ++ rest.join) := by
          rw [← ihj, hgr]
          rfl
        have hymem : y ∈ xs := by rw [hxs_shape]; exact List.mem_cons_self _ _
        have hxy : x < y := hxlt y hymem
        obtain ⟨p0, n0, hg0, hn0, hleft0, hright0⟩ :=
          ihg (y :: g) (by rw [hgr]; exact List.mem_cons_self _ _)
        have hp0 : p0 = y := by
          have hh : (y :: g).headD 0 = y := rfl
          rw [hg0, consecFrom_headD n0 p0 0 hn0] at hh
          omega
        rw [hp0] at hg0 hleft0 hright0
        have hrestBound : ∀ g' ∈ rest, ∃ p n, g' = consecFrom p n ∧ 0 < n ∧
            (0 < p → (p - 1) ∉ x :: xs) ∧ (p + n) ∉ x :: xs := by
          intro g' hg'
          obtain ⟨p, n, hgp, hn, hl, hr⟩ := ihg g' (by rw [hgr]; exact List.mem_cons_of_mem _ hg')
          have hpj : p ∈ rest.join :=
            List.mem_join.mpr ⟨g', hg',
              by rw [hgp]; exact (consecFrom_mem n p p).mpr ⟨le_refl p, by omega⟩⟩
          have hyp : y < p := by
            have hpw := hpxs
            rw [hxs_shape] at hpw
            exact (List.pairwise_cons.mp hpw).1 p (List.mem_append_right _ hpj)
          refine ⟨p, n, hgp, hn, ?_, ?_⟩
          · intro hpp hmem
            rcases List.mem_cons.mp hmem with h | h
            · omega
            · exact hl hpp h
          · intro hmem
            rcases List.mem_cons.mp hmem with h | h
            · omega
            · exact hr h
        by_cases hmerge : x + 1 = y
        · have hTop : groupRuns (x :: xs) = (x :: y :: g) :: rest := by
            simp only [groupRuns]
            rw [hgr]
            simp [hmerge]
          refine ⟨?_, ?_⟩
          · rw [hTop]
            show x :: y :: (g ++ rest.join) = x :: xs
            rw [hxs_shape]
          · intro g' hg'
            rw [hTop] at hg'
            rcases List.mem_cons.mp hg' with rfl | hg'rest
            · refine ⟨x, n0 + 1, ?_, by omega, ?_, ?_⟩
              · show x :: y :: g = consecFrom x (n0 + 1)
                rw [hg0]
                show x :: consecFrom y n0 = x :: consecFrom (x + 1) n0
                rw [← hmerge]
              · intro hx hmem
                rcases List.mem_cons.mp hmem with h | h
                · omega
                · have := hxlt _ h
                  omega
              · intro hmem
                rcases List.mem_cons.mp hmem with h | h
                · omega
                · apply hright0
                  have he : x + (n0 + 1) = y + n0 := by omega
                  rwa [he] at h
            · exact hrestBound g' hg'rest
        · have hTop : groupRuns (x :: xs) = [x] :: (y :: g) :: rest := by
            simp only [groupRuns]
            rw [hgr]
            simp [hmerge]
          refine ⟨?_, ?_⟩
          · rw [hTop]
            show x :: y :: (g ++ rest.join) = x :: xs
            rw [hxs_shape]
          · intro g' hg'
            rcases List.mem_cons.mp (hTop ▸ hg') with rfl | hg'2
            · refine ⟨x, 1, rfl, by omega, ?_, ?_⟩
              · intro hx hmem
                rcases List.mem_cons.mp hmem with h | h
                · omega
                · have := hxlt _ h
                  omega
              · intro hmem
                rcases List.mem_cons.mp hmem with h | h
                · omega
                · rw [hxs_shape] at h
                  rcases List.mem_cons.mp h with h | h
                  · omega
                  · have hlt : y < x + 1 := by
                      have hpw := hpxs
                      rw [hxs_shape] at hpw
                      exact (List.pairwise_cons.mp hpw).1 _ h
                    omega
            · rcases List.mem_cons.mp hg'2 with rfl | hg'rest
              · refine ⟨y, n0, hg0, hn0, ?_, ?_⟩
                · intro hy hmem
                  rcases List.mem_cons.mp hmem with h | h
                  · omega
                  · exact hleft0 hy h
                · intro hmem
                  rcases List.mem_cons.mp hmem with h | h
                  · omega
                  · exact hright0 h
              · exact hrestBound g' hg'rest

/-- The `(start, length)` pairs reported for a strictly increasing position
list are exactly the maximal consecutive runs of length at least two. -/
lemma groupRuns_report_iff (l : List Nat) (hl : l.Pairwise (· < ·)) (p n : Nat) :
    (p, n) ∈ ((groupRuns l).filter (fun g => 1 < g.length)).map (fun g => (g.headD 0, g.length)) ↔
    (2 ≤ n ∧ (∀ k, k < n → (p + k) ∈ l) ∧ (0 < p → (p - 1) ∉ l) ∧ (p + n) ∉ l) := by
  obtain ⟨hjoin, hshape⟩ := groupRuns_spec l hl
  constructor
  · intro h
    rw [List.mem_map] at h
    obtain ⟨g, hgf, hpn⟩ := h
    rw [List.mem_filter] at hgf
    obtain ⟨hg, hlen⟩ := hgf
    obtain ⟨q, m, hgq, hm, hleft, hright⟩ := hshape g hg
    rw [Prod.mk.injEq] at hpn
    obtain ⟨hp, hn⟩ := hpn
    rw [hgq, consecFrom_headD m q 0 hm] at hp
    rw [hgq, consecFrom_length] at hn
    subst hp
    subst hn
    rw [hgq, consecFrom_length] at hlen
    refine ⟨by simpa using hlen, ?_, hleft, hright⟩
    intro k hk
    rw [← hjoin]
    refine List.mem_join.mpr ⟨g, hg, ?_⟩
    rw [hgq]
    exact (consecFrom_mem m q (q + k)).mpr ⟨by omega, by omega⟩
  · rintro ⟨hn2, hall, hleft, hright⟩
    have hp : p ∈ l := by
      have h0 := hall 0 (by omega)
      simpa using h0
    rw [← hjoin] at hp
    obtain ⟨g, hg, hpg⟩ := List.mem_join.mp hp
    obtain ⟨q, m, hgq, hm, hleftg, hrightg⟩ := hshape g hg
    have hqm := (consecFrom_mem m q p).mp (by rwa [hgq] at hpg)
    have hpq : p = q := by
      by_contra hne
      have hq_lt : q < p := by omega
      have hmem : p - 1 ∈ g := by
        rw [hgq]
        exact (consecFrom_mem m q (p - 1)).mpr ⟨by omega, by omega⟩
      have hmem2 : p - 1 ∈ l := by
        rw [← hjoin]
        exact List.mem_join.mpr ⟨g, hg, hmem⟩
      exact hleft (by omega) hmem2
    subst hpq
    have hnm : n = m := by
      by_contra hne
      rcases Nat.lt_or_ge n m with h | h
      · have hmem : p + n ∈ g := by
          rw [hgq]
          exact (consecFrom_mem m p (p + n)).mpr ⟨by omega, by omega⟩
        have hmem2 : p + n ∈ l := by
          rw [← hjoin]
          exact List.mem_join.mpr ⟨g, hg, hmem⟩
        exact hright hmem2
      · have hmem : p + m ∈ l := hall m (by omega)
        exact hrightg hmem
    subst hnm
    rw [List.mem_map]
    refine ⟨g, ?_, ?_⟩
    · rw [List.mem_filter]
      refine ⟨hg, ?_⟩
      rw [hgq, consecFrom_length]
      simpa using hn2
    · rw [hgq, consecFrom_headD _ _ _ hm, consecFrom_length]

/-! ## getLastD facts for the trailing-blank condition -/

lemma getLastD_mem (l : List Nat) (d : Nat) (h : l ≠ []) : l.getLastD d ∈ l := by
  rw [List.getLastD_eq_getLast?, List.getLast?_eq_getLast_of_ne_nil h]
  exact List.getLast_mem h

lemma sorted_le_getLastD : ∀ (l : List Nat), l.Pairwise (· < ·) → ∀ x ∈ l, x ≤ l.getLastD 0
  | [], _, x, hx => by simp at hx
  | [a], _, x, hx => by
    have hx2 : x = a := by simpa using hx
    subst hx2
    rw [List.getLastD_eq_getLast?]
    exact le_refl _
  | a :: b :: t, hp, x, hx => by
    have h1 : (b :: t).Pairwise (· < ·) := (List.pairwise_cons.mp hp).2
    have hd : (a :: b :: t).getLastD 0 = (b :: t).getLastD 0 := by
      rw [List.getLastD_eq_getLast?, List.getLastD_eq_getLast?, List.getLast?_cons_cons]
    rw [hd]
    rcases List.mem_cons.mp hx with rfl | hx2
    · have hab : x < b := (List.pairwise_cons.mp hp).1 b (List.mem_cons_self _ _)
      have hb := sorted_le_getLastD (b :: t) h1 b (List.mem_cons_self _ _)
      omega
    · exact sorted_le_getLastD (b :: t) h1 x hx2

/-! ## The blank-space check, characterized -/

lemma blankCheckLine_eq_nil (raw : List Char) (hb : findall_blank (rstripNewline raw) = []) :
    blankCheckLine raw = ⟨[], false⟩ := by
  simp only [blankCheckLine]
  rw [if_pos hb]

lemma blankCheckLine_eq_cons (raw : List Char) (hb : findall_blank (rstripNewline raw) ≠ []) :
    blankCheckLine raw =
      ⟨((groupRuns (findall_blank (rstripNewline raw))).filter (fun g => 1 < g.length)).map
          (fun g => (g.headD 0, g.length)),
        decide ((findall_blank (rstripNewline raw)).getLastD 0 = (rstripNewline raw).length - 1)⟩ := by
  simp only [blankCheckLine]
  rw [if_neg hb]

lemma blankCheckLine_runs_iff (raw : List Char) (p n : Nat) :
    (p, n) ∈ (blankCheckLine raw).runs ↔ MaxRun (rstripNewline raw) p n := by
  by_cases hb : findall_blank (rstripNewline raw) = []
  · rw [blankCheckLine_eq_nil raw hb]
    constructor
    · intro h
      simp at h
    · rintro ⟨hn, hall, -, -⟩
      exfalso
      have h0 : spaceAt (rstripNewline raw) p = true := by
        have hh := hall 0 (by omega)
        simpa using hh
      have hmem : p ∈ findall_blank (rstripNewline raw) := (mem_findall_blank _ _).mpr h0
      rw [hb] at hmem
      simp at hmem
  · rw [blankCheckLine_eq_cons raw hb]
    show (p, n) ∈ ((groupRuns (findall_blank (rstripNewline raw))).filter
        (fun g => 1 < g.length)).map (fun g => (g.headD 0, g.length)) ↔ _
    rw [groupRuns_report_iff _ (pairwise_findall_blank _) p n]
    unfold MaxRun
    simp only [mem_findall_blank, Bool.not_eq_true]

lemma blankCheckLine_trailing_iff (raw : List Char) :
    (blankCheckLine raw).trailing = true ↔
      (0 < (rstripNewline raw).length ∧
        spaceAt (rstripNewline raw) ((rstripNewline raw).length - 1) = true) := by
  by_cases hb : findall_blank (rstripNewline raw) = []
  · rw [blankCheckLine_eq_nil raw hb]
    constructor
    · intro h
      simp at h
    · rintro ⟨hlen, hsp⟩
      exfalso
      have hmem : (rstripNewline raw).length - 1 ∈ findall_blank (rstripNewline raw) :=
        (mem_findall_blank _ _).mpr hsp
      rw [hb] at hmem
      simp at hmem
  · rw [blankCheckLine_eq_cons raw hb]
    show decide ((findall_blank (rstripNewline raw)).getLastD 0 =
        (rstripNewline raw).length - 1) = true ↔ _
    rw [decide_eq_true_eq]
    have hLmem : (findall_blank (rstripNewline raw)).getLastD 0 ∈
        findall_blank (rstripNewline raw) := getLastD_mem _ _ hb
    have hLsp : spaceAt (rstripNewline raw) ((findall_blank (rstripNewline raw)).getLastD 0) =
        true := (mem_findall_blank _ _).mp hLmem
    have hLlt : (findall_blank (rstripNewline raw)).getLastD 0 < (rstripNewline raw).length :=
      spaceAt_lt_length hLsp
    constructor
    · intro he
      refine ⟨by omega, ?_⟩
      rw [← he]
      exact hLsp
    · rintro ⟨hlen, hsp⟩
      have hmem : (rstripNewline raw).length - 1 ∈ findall_blank (rstripNewline raw) :=
        (mem_findall_blank _ _).mpr hsp
      have hle := sorted_le_getLastD _ (pairwise_findall_blank _) _ hmem
      omega

/-- C7: for every line (after stripping trailing newlines): if the line has
no whitespace the blank-space check reports nothing; otherwise the reported
`(position, length)` pairs are exactly the maximal runs of at least two
consecutive whitespace characters (0-based start), and the trailing-blank
warning fires exactly when the line is non-empty and its last character is
whitespace; on the line `"  twice  spaced"` exactly the two runs
`(0, 2)` and `(7, 2)` are reported. -/
theorem c7_blank_space_checker :
    (∀ raw : List Char,
      ((∀ q, spaceAt (rstripNewline raw) q = false) → blankCheckLine raw = ⟨[], false⟩) ∧
      (∀ p n, (p, n) ∈ (blankCheckLine raw).runs ↔ MaxRun (rstripNewline raw) p n) ∧
      ((blankCheckLine raw).trailing = true ↔
        (0 < (rstripNewline raw).length ∧
          spaceAt (rstripNewline raw) ((rstripNewline raw).length - 1) = true))) ∧
    blankCheckLine "  twice  spaced".data = ⟨[(0, 2), (7, 2)], false⟩ := by
  refine ⟨fun raw => ⟨?_, fun p n => blankCheckLine_runs_iff raw p n,
    blankCheckLine_trailing_iff raw⟩, by decide⟩
  intro hns
  apply blankCheckLine_eq_nil
  rw [List.eq_nil_iff_forall_not_mem]
  intro q hq
  have := (mem_findall_blank _ _).mp hq
  rw [hns q] at this
  exact Bool.noConfusion this

/-- Witness for C7: a line with no whitespace reports nothing. -/
theorem c7_blank_space_checker_witness : blankCheckLine "abc".data = ⟨[], false⟩ := by
  refine (c7_blank_space_checker.1 "abc".data).1 ?_
  intro q
  rcases Nat.lt_or_ge q 3 with h | h
  · interval_cases q <;> decide
  · unfold spaceAt
    have hlen : (rstripNewline "abc".data).length = 3 := by decide
    rw [List.get?_eq_none.mpr (by omega)]

/-! ## The bad-period check -/

lemma strIn_iff : ∀ (pat s : List Char), strIn pat s = true ↔ pat <:+: s
  | pat, [] => by
    show pat.isEmpty = true ↔ _
    rw [ List.isEmpty_iff, List.infix_nil]
  | pat, a :: t => by
    show (pat.isPrefixOf (a :: t) || strIn pat t) = true ↔ _
    rw [Bool.or_eq_true, List.infix_cons_iff, List.isPrefixOf_iff_prefix, strIn_iff pat t]

lemma periodHit_iff (line : List Char) :
    periodHit line = true ↔
      ("..".data <:+: line ∨ "...".data <:+: line ∨ ". . .".data <:+: line) := by
  unfold periodHit
  rw [Bool.or_eq_true, Bool.or_eq_true, strIn_iff, strIn_iff, strIn_iff, or_assoc]

lemma badPeriodLines_mem (lines : List (List Char)) (n : Nat) :
    n ∈ badPeriodLines lines ↔
      ∃ i line, lines.get? i = some line ∧ n = i + 1 ∧ periodHit line = true := by
  unfold badPeriodLines
  rw [List.Perm.mem_iff (List.perm_insertionSort _ _), List.mem_dedup, List.mem_map]
  constructor
  · rintro ⟨⟨i, line⟩, hm, rfl⟩
    rw [List.mem_filter] at hm
    obtain ⟨hmem, hhit⟩ := hm
    have h := (mem_enumFrom_iff lines 0 i line).mp hmem
    exact ⟨i, line, by simpa using h.2, rfl, by simpa using hhit⟩
  · rintro ⟨i, line, hget, rfl, hhit⟩
    refine ⟨(i, line), ?_, rfl⟩
    rw [List.mem_filter]
    exact ⟨(mem_enumFrom_iff lines 0 i line).mpr ⟨Nat.zero_le _, by simpa using hget⟩,
      by simpa using hhit⟩

lemma badPeriodLines_pairwise (lines : List (List Char)) :
    (badPeriodLines lines).Pairwise (· < ·) := by
  unfold badPeriodLines
  have hs := List.sorted_insertionSort (· ≤ ·)
    (((lines.enum.filter (fun p => periodHit p.2)).map (fun p => p.1 + 1)).dedup)
  have hnd : (List.insertionSort (· ≤ ·)
      (((lines.enum.filter (fun p => periodHit p.2)).map (fun p => p.1 + 1)).dedup)).Nodup :=
    ((List.perm_insertionSort _ _).nodup_iff).mpr (List.nodup_dedup _)
  exact List.Sorted.lt_of_le hs hnd

/-- C6: a line is flagged by the bad-period check iff it contains two
consecutive periods, three consecutive periods, or the space-padded sequence
`. . .`; the flagged 1-based line numbers form a strictly increasing list
(each reported once, in sorted order, as one summary list); and the line
`"This is odd. . . really"` is flagged. -/
theorem c6_literal_ellipsis_checker :
    (∀ lines : List (List Char),
      (badPeriodLines lines).Pairwise (· < ·) ∧
      (∀ n, n ∈ badPeriodLines lines ↔
        ∃ i line, lines.get? i = some line ∧ n = i + 1 ∧
          ("..".data <:+: line ∨ "...".data <:+: line ∨ ". . .".data <:+: line))) ∧
    badPeriodLines ["This is odd. . . really".data] = [1] := by
  refine ⟨fun lines => ⟨badPeriodLines_pairwise lines, fun n => ?_⟩, by decide⟩
  rw [badPeriodLines_mem lines n]
  simp only [periodHit_iff]

/-! ## Exit codes and output determinism -/

/-- C8: the process exits with code 1 on a wrong argument count, on a path
that is not an existing regular file, and on an unreadable file; when the
file is read and `runchecks` completes (its return value is always 0, no
rule-evaluation error being detected), the process exits with code 0. -/
theorem c8_exit_codes (now : String) (argv : List String) (isfile : String → Bool)
    (readf : String → Option (List (List Char))) (uname : Char → Option String) :
    (argv.length ≠ 2 → (mainRun now argv isfile readf uname).2 = some 1) ∧
    (argv.length = 2 → isfile (argv.getD 1 "") = false →
      (mainRun now argv isfile readf uname).2 = some 1) ∧
    (argv.length = 2 → isfile (argv.getD 1 "") = true →
      readf (argv.getD 1 "") = none → (mainRun now argv isfile readf uname).2 = some 1) ∧
    (∀ lines, argv.length = 2 → isfile (argv.getD 1 "") = true →
      readf (argv.getD 1 "") = some lines →
      (runchecksResult uname lines (chars_to_check lines)).2 = false →
      (mainRun now argv isfile readf uname).2 = some 0) := by
  refine ⟨?_, ?_, ?_, ?_⟩
  · intro h
    simp only [mainRun]
    rw [if_pos h]
  · intro h2 hf
    simp only [mainRun]
    rw [if_neg (by omega), if_pos hf]
  · intro h2 hf hr
    simp only [mainRun]
    rw [if_neg (by omega), if_neg (fun hc => by rw [hf] at hc; exact Bool.noConfusion hc), hr]
  · intro lines h2 hf hr hcr
    simp only [mainRun]
    rw [if_neg (by omega), if_neg (fun hc => by rw [hf] at hc; exact Bool.noConfusion hc), hr]
    show (_, if (runchecksResult uname lines (chars_to_check lines)).2 then none else some 0).2 =
      some 0
    rw [hcr]
    rfl

/-- Witness for C8 on concrete argument vectors and file systems. -/
theorem c8_exit_codes_witness :
    (mainRun "t" ["prog"] (fun _ => true) (fun _ => none) (fun _ => none)).2 = some 1 ∧
    (mainRun "t" ["prog", "f"] (fun _ => false) (fun _ => none) (fun _ => none)).2 = some 1 ∧
    (mainRun "t" ["prog", "f"] (fun _ => true) (fun _ => none) (fun _ => none)).2 = some 1 ∧
    (mainRun "t" ["prog", "f"] (fun _ => true) (fun _ => some [['a', '\n']])
      (fun _ => none)).2 = some 0 :=
  ⟨(c8_exit_codes "t" ["prog"] (fun _ => true) (fun _ => none) (fun _ => none)).1 (by decide),
   (c8_exit_codes "t" ["prog", "f"] (fun _ => false) (fun _ => none) (fun _ => none)).2.1 rfl rfl,
   (c8_exit_codes "t" ["prog", "f"] (fun _ => true) (fun _ => none) (fun _ => none)).2.2.1
     rfl rfl rfl,
   (c8_exit_codes "t" ["prog", "f"] (fun _ => true) (fun _ => some [['a', '\n']])
     (fun _ => none)).2.2.2 [['a', '\n']] rfl rfl rfl (by decide)⟩

/-- C9, counterexample: two runs on the same unmodified input file (same
argument vector, file system and file contents) but at different clock times
produce different visible output, because `main` prints the current
`datetime.datetime.now()`. -/
theorem c9_idempotence_counterexample :
    (mainRun "09:00" ["prog", "f"] (fun _ => true) (fun _ => some [['a', '\n']])
      (fun _ => none)).1 ≠
    (mainRun "09:01" ["prog", "f"] (fun _ => true) (fun _ => some [['a', '\n']])
      (fun _ => none)).1 := by
  decide

/-- C9 (amended): apart from the `Started at ...` timestamp line (the first
line printed after a successful usage and file check), the visible output and
the exit code are deterministic functions of the argument vector, the file
system and the file contents: two runs at different times agree after
dropping the first output entry. -/
theorem c9_idempotence_amended (now now2 : String) (argv : List String)
    (isfile : String → Bool) (readf : String → Option (List (List Char)))
    (uname : Char → Option String) :
    (mainRun now argv isfile readf uname).1.drop 1 =
      (mainRun now2 argv isfile readf uname).1.drop 1 ∧
    (mainRun now argv isfile readf uname).2 = (mainRun now2 argv isfile readf uname).2 := by
  simp only [mainRun]
  by_cases h1 : argv.length ≠ 2
  · rw [if_pos h1, if_pos h1]
    exact ⟨rfl, rfl⟩
  · rw [if_neg h1, if_neg h1]
    by_cases h2 : isfile (argv.getD 1 "") = false
    · rw [if_pos h2, if_pos h2]
      exact ⟨rfl, rfl⟩
    · rw [if_neg h2, if_neg h2]
      cases h3 : readf (argv.getD 1 "") with
      | none => exact ⟨rfl, rfl⟩
      | some lines => exact ⟨rfl, rfl⟩
